import Mathlib

/-!
Verification of the `Web_Client` command-line HTTP client (`src/main.rs`).

The development shallowly embeds the parts of the program that the claims
are about:

* `JVal` models `serde_json::Value`.  The crate is built with serde_json's
  default features, so `serde_json::Map` is a `BTreeMap<String, Value>`:
  object entries are kept in strictly ascending key order and `insert`
  replaces the value of an existing key.  We model a map as an association
  list `List (List Char × JVal)` together with the `BTreeMap`
  representation invariant `sortedM` (strictly ascending keys).  Keys and
  strings are `List Char`; Rust's byte-wise lexicographic order on UTF-8
  strings coincides with code-point lexicographic order on the character
  lists, which is what `keyLt` implements.  Numbers are `Num64`, mirroring
  `serde_json::Number` with default features: a `u64`, a negative `i64`,
  or a finite `f64`.  A finite `f64` is represented exactly, as a sign and
  a dyadic magnitude `m * 2 ^ ex`; the parser computes it with the very
  sequence of correctly rounded IEEE-754 binary64 operations that
  serde_json's `f64_from_parts` performs (`rnRat` is round-to-nearest,
  ties to even), so the accept/reject boundary of the parser — including
  the `NumberOutOfRange` error on overflow to infinity — is modelled
  exactly.
* `prettyV` models `serde_json::to_string_pretty` (the `PrettyFormatter`
  with two-space indentation), including serde_json's string escaping.
  The decimal rendering of finite floats is delegated by serde_json to
  the external `ryu` crate (`ryu::Buffer::format_finite`); like the
  transport, that collaborator enters the model as a parameter of type
  `RyuFmt`, and the theorems about the formatter hold for every choice of
  it, in particular for the real one.
* `parseVal`/`parseJson` model `serde_json::from_str::<Value>`, with fuel
  for termination.  The number grammar and its classification follow
  serde_json's `de.rs` case by case (`parse_any_number`, `parse_number`,
  `parse_long_integer`, `parse_decimal`, `parse_exponent`,
  `f64_from_parts`), including the leading-zero rule, the `u64`
  significand truncation and the `i32` exponent overflow checks.
* `resolveMethod`, `runParsed`, `dispatch`, `handleGet`, `handleFormPost`,
  `handleJsonPost`, `printResponse`, `sortJsonKeys`, `handleUrlError` and
  `formPairs` model the corresponding code in `main.rs`.  The argument
  parser (`structopt`), the URL parser (`url` crate) and the HTTP
  transport (`reqwest`) are external collaborators: their results
  (`Cli`, `ParsedUrl`, `TransportResult`) are inputs of the model.

Inputs longer than `i32::MAX` bytes (2 GiB) are outside the model: there
the source's `i32` digit-position counters would wrap where the model's
`Int` does not (the explicit `overflow!` check on the exponent digits of
a number literal, by contrast, is modelled faithfully).
-/

namespace WebClient

/-- Model of `serde_json::Number` with default features: internally a
`u64` (`posInt`), a negative `i64` (`negInt`), or a finite `f64`
(`float`).  The finite `f64` is exact: sign flag `neg` and dyadic
magnitude `m * 2 ^ ex` with `m < 2 ^ 53` (so `float true 0 0` is
`-0.0`). -/
inductive Num64 where
  | posInt (n : Nat)
  | negInt (n : Int)
  | float (neg : Bool) (m : Nat) (ex : Int)

/-- Model of `serde_json::Value` (default features: objects are
`BTreeMap<String, Value>`). -/
inductive JVal where
  | null
  | bool (b : Bool)
  | num (n : Num64)
  | str (s : List Char)
  | arr (vs : List JVal)
  | obj (kvs : List (List Char × JVal))

/-- Strict lexicographic order on keys: Rust's `Ord` on `String` is
byte-wise lexicographic on UTF-8, which equals code-point lexicographic
order on the character sequences. -/
def keyLt : List Char → List Char → Bool
  | [], [] => false
  | [], _ :: _ => true
  | _ :: _, [] => false
  | x :: xs, y :: ys =>
    if x.toNat < y.toNat then true
    else if y.toNat < x.toNat then false
    else keyLt xs ys

/-- `BTreeMap::insert`: keep keys strictly ascending, replace the value
of an existing key. -/
def insertSorted (k : List Char) (v : JVal) :
    List (List Char × JVal) → List (List Char × JVal)
  | [] => [(k, v)]
  | (k', v') :: rest =>
    if keyLt k k' then (k, v) :: (k', v') :: rest
    else if k = k' then (k, v) :: rest
    else (k', v') :: insertSorted k v rest

/-- The `BTreeMap` invariant on one association list: adjacent keys are
strictly ascending. -/
def sortedM : List (List Char × JVal) → Bool
  | [] => true
  | [_] => true
  | (k1, _) :: (k2, v2) :: rest =>
    keyLt k1 k2 && sortedM ((k2, v2) :: rest)

mutual
/-- Every object at every nesting depth satisfies the `BTreeMap`
invariant: this holds of every value of the Rust type `serde_json::Value`
(with default features) and is preserved by the parser model. -/
def allSorted : JVal → Bool
  | .null => true
  | .bool _ => true
  | .num _ => true
  | .str _ => true
  | .arr vs => allSortedL vs
  | .obj kvs => sortedM kvs && allSortedO kvs
def allSortedL : List JVal → Bool
  | [] => true
  | v :: vs => allSorted v && allSortedL vs
def allSortedO : List (List Char × JVal) → Bool
  | [] => true
  | (_, v) :: kvs => allSorted v && allSortedO kvs
end

/-! ## The serializer: `serde_json::to_string_pretty` -/

/-- Two-space indentation of `serde_json`'s `PrettyFormatter`. -/
def indentChars (n : Nat) : List Char := List.replicate (2 * n) ' '

/-- Lower-case hexadecimal digit (serde_json's escape table). -/
def hexLowerDigit (n : Nat) : Char :=
  if n < 10 then Char.ofNat (48 + n) else Char.ofNat (87 + n)

/-- serde_json's string escaping: `"` and `\` get a backslash, the named
control characters use their short escapes, the remaining characters below
U+0020 become `\u00XX`, and everything else is written as is. -/
def escapeChar (c : Char) : List Char :=
  if c = '"' then ['\\', '"']
  else if c = '\\' then ['\\', '\\']
  else if c = Char.ofNat 8 then ['\\', 'b']
  else if c = Char.ofNat 9 then ['\\', 't']
  else if c = Char.ofNat 10 then ['\\', 'n']
  else if c = Char.ofNat 12 then ['\\', 'f']
  else if c = Char.ofNat 13 then ['\\', 'r']
  else if c.toNat < 32 then
    ['\\', 'u', '0', '0', hexLowerDigit (c.toNat / 16), hexLowerDigit (c.toNat % 16)]
  else [c]

def escList : List Char → List Char
  | [] => []
  | c :: cs => escapeChar c ++ escList cs

/-- A JSON string literal: quote, escaped body, quote. -/
def encodeStr (s : List Char) : List Char := '"' :: (escList s ++ ['"'])

def digitChar (n : Nat) : Char := Char.ofNat (48 + n)

/-- Decimal digits of `n`, most significant first (fuelled; `natToChars`
supplies enough fuel). -/
def natToCharsAux : Nat → Nat → List Char
  | 0, _ => []
  | fuel + 1, n =>
    if n = 0 then [] else natToCharsAux fuel (n / 10) ++ [digitChar (n % 10)]

def natToChars (m : Nat) : List Char :=
  if m = 0 then ['0'] else natToCharsAux (m + 1) m

/-- Decimal rendering of a `serde_json` integer. -/
def intChars : Int → List Char
  | .ofNat n => natToChars n
  | .negSucc m => '-' :: natToChars (m + 1)

/-- The three JSON keyword literals. -/
def nullChars : List Char := ['n', 'u', 'l', 'l']
def trueChars : List Char := ['t', 'r', 'u', 'e']
def falseChars : List Char := ['f', 'a', 'l', 's', 'e']

/-- The external float formatter `ryu::Buffer::format_finite`, which
serde_json's serializer calls on every finite `f64`: from the sign and
the exact dyadic components of the float, the characters it writes.  Like
the transport, this collaborator is a parameter of the model; the
theorems below hold for every `RyuFmt`, so in particular for the real
one. -/
abbrev RyuFmt : Type := Bool → Nat → Int → List Char

/-- Serialization of a `serde_json::Number`: integers through `itoa`,
finite floats through the external `ryu` formatter. -/
def numChars (ryu : RyuFmt) : Num64 → List Char
  | .posInt n => natToChars n
  | .negInt n => intChars n
  | .float b m ex => ryu b m ex

mutual
/-- `serde_json::to_string_pretty` at indentation level `ind`. -/
def prettyV (ryu : RyuFmt) (ind : Nat) : JVal → List Char
  | .null => nullChars
  | .bool true => trueChars
  | .bool false => falseChars
  | .num n => numChars ryu n
  | .str s => encodeStr s
  | .arr [] => ['[', ']']
  | .arr (v :: vs) =>
    '[' :: '\n' :: (indentChars (ind + 1) ++ prettyV ryu (ind + 1) v ++
      arrChunk ryu (ind + 1) vs ++ '\n' :: (indentChars ind ++ [']']))
  | .obj [] => ['{', '}']
  | .obj (kv :: kvs) =>
    '{' :: '\n' :: (indentChars (ind + 1) ++ memberChars ryu (ind + 1) kv ++
      objChunk ryu (ind + 1) kvs ++ '\n' :: (indentChars ind ++ ['}']))
/-- One object member: `"key": value`. -/
def memberChars (ryu : RyuFmt) (ind : Nat) : List Char × JVal → List Char
  | (k, v) => encodeStr k ++ ':' :: ' ' :: prettyV ryu ind v
/-- The remaining array elements, each preceded by `,\n` and indentation. -/
def arrChunk (ryu : RyuFmt) (ind : Nat) : List JVal → List Char
  | [] => []
  | v :: vs => ',' :: '\n' :: (indentChars ind ++ prettyV ryu ind v ++ arrChunk ryu ind vs)
/-- The remaining object members, each preceded by `,\n` and indentation. -/
def objChunk (ryu : RyuFmt) (ind : Nat) : List (List Char × JVal) → List Char
  | [] => []
  | kv :: kvs => ',' :: '\n' :: (indentChars ind ++ memberChars ryu ind kv ++ objChunk ryu ind kvs)
end

/-! ## The parser: `serde_json::from_str::<Value>` -/

/-- JSON whitespace (serde_json: space, tab, newline, carriage return). -/
def isWsChar (c : Char) : Bool := c = ' ' || c = Char.ofNat 9 || c = '\n' || c = Char.ofNat 13

def skipWs : List Char → List Char
  | [] => []
  | c :: cs => if isWsChar c then skipWs cs else c :: cs

def isDigitChar (c : Char) : Bool := 48 ≤ c.toNat && c.toNat ≤ 57

def hexVal (c : Char) : Option Nat :=
  if 48 ≤ c.toNat ∧ c.toNat ≤ 57 then some (c.toNat - 48)
  else if 97 ≤ c.toNat ∧ c.toNat ≤ 102 then some (c.toNat - 87)
  else if 65 ≤ c.toNat ∧ c.toNat ≤ 70 then some (c.toNat - 55)
  else none

def unescapeSimple (e : Char) : Option Char :=
  if e = '"' then some '"'
  else if e = '\\' then some '\\'
  else if e = '/' then some '/'
  else if e = 'b' then some (Char.ofNat 8)
  else if e = 'f' then some (Char.ofNat 12)
  else if e = 'n' then some '\n'
  else if e = 'r' then some (Char.ofNat 13)
  else if e = 't' then some (Char.ofNat 9)
  else none

/-- The value of four hex digits, if all four are hex digits. -/
def hex4 (h1 h2 h3 h4 : Char) : Option Nat :=
  match hexVal h1, hexVal h2, hexVal h3, hexVal h4 with
  | some a, some b, some c, some d => some (4096 * a + 256 * b + 16 * c + d)
  | _, _, _, _ => none

/-- One escape sequence after the backslash: the decoded character and
the remaining input.  Lone surrogates are rejected, surrogate pairs are
combined, exactly as in serde_json. -/
def decodeEscape : List Char → Option (Char × List Char)
  | [] => none
  | e :: cs1 =>
    if e = 'u' then
      match cs1 with
      | h1 :: h2 :: h3 :: h4 :: cs2 =>
        match hex4 h1 h2 h3 h4 with
        | none => none
        | some n =>
          if 55296 ≤ n ∧ n ≤ 56319 then
            match cs2 with
            | b1 :: b2 :: g1 :: g2 :: g3 :: g4 :: cs3 =>
              if b1 = '\\' ∧ b2 = 'u' then
                match hex4 g1 g2 g3 g4 with
                | none => none
                | some m =>
                  if 56320 ≤ m ∧ m ≤ 57343 then
                    some (Char.ofNat (65536 + (n - 55296) * 1024 + (m - 56320)), cs3)
                  else none
              else none
            | _ => none
          else if 56320 ≤ n ∧ n ≤ 57343 then none
          else some (Char.ofNat n, cs2)
      | _ => none
    else
      match unescapeSimple e with
      | some d => some (d, cs1)
      | none => none

/-- The body of a string literal, after the opening quote: returns the
decoded characters and the input after the closing quote.  Unescaped
control characters below U+0020 are rejected, exactly as in serde_json.
Each step consumes at least one input character, so the fuel
`length + 1` used at the call sites never runs out. -/
def parseStringBody : Nat → List Char → Option (List Char × List Char)
  | 0, _ => none
  | _ + 1, [] => none
  | fuel + 1, c :: cs =>
    if c = '"' then some ([], cs)
    else if c = '\\' then
      match decodeEscape cs with
      | none => none
      | some (d, cs2) => (fun p => (d :: p.1, p.2)) <$> parseStringBody fuel cs2
    else if c.toNat < 32 then none
    else (fun p => (c :: p.1, p.2)) <$> parseStringBody fuel cs

/-! ### Number literals: serde_json's `de.rs` with default features

serde_json accumulates the significand in a `u64`, truncating further
digits (they only shift the decimal exponent), classifies pure integers
as `u64`/`i64`, and computes every other number as an `f64` by the
`f64_from_parts` loop: `significand as f64`, then one multiplication or
division by a `POW10` table entry per step.  Each such step is one
correctly rounded IEEE-754 binary64 operation, which `rnRat` computes
exactly on the dyadic representation; a product that overflows to
infinity is the `NumberOutOfRange` parse error. -/

def u64Max : Nat := 18446744073709551615
def i32Max : Nat := 2147483647

def charDigit (c : Char) : Nat := c.toNat - 48

/-- Skip a run of ASCII digits (serde_json's "ignore all further
digits" loops). -/
def skipDigits : List Char → List Char
  | c :: rest => if isDigitChar c then skipDigits rest else c :: rest
  | [] => []

def bitlenAux : Nat → Nat → Nat
  | 0, _ => 0
  | fuel + 1, n => if n = 0 then 0 else bitlenAux fuel (n / 2) + 1

/-- Number of binary digits of `n` (`0` for `n = 0`); the fuel `n + 1`
always suffices. -/
def bitlen (n : Nat) : Nat := bitlenAux (n + 1) n

/-- Round-to-nearest, ties-to-even, of the rational `a / b` (`b > 0`) to
an IEEE-754 binary64 magnitude: `some (m, e)` stands for `m * 2 ^ e` with
`m < 2 ^ 53` and `e ≥ -1074` (subnormals included), `none` for a value
that rounds to infinity (exactly when `a / b ≥ 2 ^ 1024 - 2 ^ 970`).
This is the mathematical content of each single `f64` operation the
parser performs: `u64 as f64` casts, decimal literals such as the `1eXXX`
entries of serde_json's `POW10` table, and one multiplication or division
of exactly represented values. -/
def rnRat (a b : Nat) : Option (Nat × Int) :=
  if a = 0 ∨ b = 0 then some (0, 0) else
  let L0 : Int := (bitlen a : Int) - (bitlen b : Int)
  let L : Int := if b * 2 ^ L0.toNat ≤ a * 2 ^ (-L0).toNat then L0 + 1 else L0
  let e : Int := max (-1074) (L - 53)
  let num : Nat := a * 2 ^ (-e).toNat
  let den : Nat := b * 2 ^ e.toNat
  let q : Nat := num / den
  let r : Nat := num % den
  let q2 : Nat := if den < 2 * r ∨ (den = 2 * r ∧ q % 2 = 1) then q + 1 else q
  let me : Nat × Int := if q2 = 2 ^ 53 then (2 ^ 52, e + 1) else (q2, e)
  if 972 ≤ me.2 then none else some me

/-- `n as f64` for `n ≤ u64::MAX` (never infinite, so the default is
dead). -/
def rn64 (n : Nat) : Nat × Int := (rnRat n 1).getD (0, 0)

/-- Entry `k` of serde_json's `POW10` table: the `f64` constant `1eK`,
i.e. `10 ^ k` correctly rounded (finite for every `k ≤ 308`, the only
indices the table has). -/
def pow10F (k : Nat) : Nat × Int := (rnRat (10 ^ k) 1).getD (0, 0)

/-- `f * g` on finite `f64` magnitudes: the exact product, rounded;
`none` when the product is infinite (`f.is_infinite()` after `f *= pow`). -/
def rnTimes (f g : Nat × Int) : Option (Nat × Int) :=
  rnRat (f.1 * g.1 * 2 ^ (f.2 + g.2).toNat) (2 ^ (-(f.2 + g.2)).toNat)

/-- `f / g` on finite `f64` magnitudes with `g ≥ 1` (as every `POW10`
entry is), so the quotient is finite and the default is dead. -/
def rnDivD (f g : Nat × Int) : Nat × Int :=
  (rnRat (f.1 * 2 ^ (f.2 - g.2).toNat) (g.1 * 2 ^ (g.2 - f.2).toNat)).getD (0, 0)

/-- The loop of `f64_from_parts`: look the exponent up in `POW10`
(present iff its magnitude is at most 308), multiply — erroring when the
product is infinite — or divide; out-of-table positive exponents with a
non-zero mantissa are `NumberOutOfRange` (`none`), out-of-table negative
exponents divide by `1e308` and retry.  Each retry moves the exponent up
by 308, so the fuel `|exponent| + 1` used below never runs out. -/
def f64Loop : Nat → Nat × Int → Int → Option (Nat × Int)
  | 0, f, _ => some f
  | fuel + 1, f, exponent =>
    if exponent.natAbs ≤ 308 then
      if 0 ≤ exponent then rnTimes f (pow10F exponent.natAbs)
      else some (rnDivD f (pow10F exponent.natAbs))
    else if f.1 = 0 then some f
    else if 0 ≤ exponent then none
    else f64Loop fuel (rnDivD f (pow10F 308)) (exponent + 308)

/-- `f64_from_parts(positive, significand, exponent)`: the finite `f64`
value `significand * 10 ^ exponent` as serde_json computes it, with the
sign applied at the end; `none` is the `NumberOutOfRange` error. -/
def f64FromParts (positive : Bool) (significand : Nat) (exponent : Int) : Option Num64 :=
  (f64Loop (exponent.natAbs + 1) (rn64 significand) exponent).map
    (fun f => .float (!positive) f.1 f.2)

/-- `parse_number`'s terminal classification of a pure integer literal
whose significand fits in a `u64`: positive integers become `u64`;
negative ones go through `(significand as i64).wrapping_neg()`, which
lands in `i64` for magnitudes in `1 ..= 2 ^ 63` and falls back to an
`f64` on `-0` and on magnitudes above `2 ^ 63`. -/
def classifyInt (positive : Bool) (significand : Nat) : Num64 :=
  if positive then .posInt significand
  else if significand = 0 then .float true 0 0
  else if significand ≤ 2 ^ 63 then .negInt (-(significand : Int))
  else .float true (rn64 significand).1 (rn64 significand).2

/-- The digit loop of `parse_exponent`: accumulate the explicit exponent,
guarding each step with `overflow!(exp * 10 + digit, i32::MAX)`; on
overflow (`parse_exponent_overflow`) a non-zero significand with a
positive exponent sign is `NumberOutOfRange`, otherwise the remaining
digits are skipped and the value is `0.0` (with the number's sign). -/
def parseExpDigits (positive : Bool) (significand : Nat) (starting : Int)
    (positiveExp : Bool) : Nat → List Char → Option (Num64 × List Char)
  | exp, c :: rest =>
    if isDigitChar c then
      if exp * 10 + charDigit c > i32Max then
        if significand ≠ 0 ∧ positiveExp = true then none
        else some (.float (!positive) 0 0, skipDigits rest)
      else parseExpDigits positive significand starting positiveExp (exp * 10 + charDigit c) rest
    else
      (fun n => (n, c :: rest)) <$> f64FromParts positive significand
        (if positiveExp then starting + (exp : Int) else starting - (exp : Int))
  | exp, [] =>
      (fun n => (n, ([] : List Char))) <$> f64FromParts positive significand
        (if positiveExp then starting + (exp : Int) else starting - (exp : Int))

/-- After `e`/`E` and an optional sign there must be at least one digit. -/
def parseExpFirst (positive : Bool) (significand : Nat) (starting : Int)
    (positiveExp : Bool) : List Char → Option (Num64 × List Char)
  | c :: rest =>
    if isDigitChar c then
      parseExpDigits positive significand starting positiveExp (charDigit c) rest
    else none
  | [] => none

/-- `parse_exponent`: an optional sign, then digits. -/
def parseExponent (positive : Bool) (significand : Nat) (starting : Int) :
    List Char → Option (Num64 × List Char)
  | '+' :: r => parseExpFirst positive significand starting true r
  | '-' :: r => parseExpFirst positive significand starting false r
  | r => parseExpFirst positive significand starting true r

/-- After the fraction digits: an exponent part, or the value itself. -/
def parseFloatTail (positive : Bool) (significand : Nat) (exponent : Int) :
    List Char → Option (Num64 × List Char)
  | c :: rest =>
    if c = 'e' ∨ c = 'E' then parseExponent positive significand exponent rest
    else (fun n => (n, c :: rest)) <$> f64FromParts positive significand exponent
  | [] => (fun n => (n, ([] : List Char))) <$> f64FromParts positive significand exponent

/-- The digit loop of `parse_decimal`: accumulate fraction digits into
the significand (decrementing the exponent) until the `u64` would
overflow; from there remaining digits are ignored (skipped). -/
def parseDecimalLoop (positive : Bool) : Nat → Int → List Char → Option (Num64 × List Char)
  | significand, exponent, c :: rest =>
    if isDigitChar c then
      if significand * 10 + charDigit c > u64Max then
        parseFloatTail positive significand exponent (skipDigits (c :: rest))
      else parseDecimalLoop positive (significand * 10 + charDigit c) (exponent - 1) rest
    else parseFloatTail positive significand exponent (c :: rest)
  | significand, exponent, [] => parseFloatTail positive significand exponent []

/-- `parse_decimal`: after the decimal point there must be at least one
digit. -/
def parseDecimal (positive : Bool) (significand : Nat) (exponent : Int)
    (cs : List Char) : Option (Num64 × List Char) :=
  match cs with
  | c :: _ => if isDigitChar c then parseDecimalLoop positive significand exponent cs else none
  | [] => none

/-- `parse_number`: after an integer part that fits a `u64`, dispatch on
a fraction point, an exponent, or classify the integer. -/
def parseNumber (positive : Bool) (significand : Nat) :
    List Char → Option (Num64 × List Char)
  | c :: rest =>
    if c = '.' then parseDecimal positive significand 0 rest
    else if c = 'e' ∨ c = 'E' then parseExponent positive significand 0 rest
    else some (classifyInt positive significand, c :: rest)
  | [] => some (classifyInt positive significand, [])

/-- `parse_long_integer`: the significand no longer grows; every further
integer digit just raises the decimal exponent, and the number is an
`f64`. -/
def parseLongInteger (positive : Bool) (significand : Nat) :
    Int → List Char → Option (Num64 × List Char)
  | exponent, c :: rest =>
    if isDigitChar c then parseLongInteger positive significand (exponent + 1) rest
    else if c = '.' then parseDecimal positive significand exponent rest
    else if c = 'e' ∨ c = 'E' then parseExponent positive significand exponent rest
    else (fun n => (n, c :: rest)) <$> f64FromParts positive significand exponent
  | exponent, [] => (fun n => (n, ([] : List Char))) <$> f64FromParts positive significand exponent

/-- The integer digit loop of `parse_any_number`: accumulate while the
`u64` significand does not overflow (`overflow!(significand * 10 + digit,
u64::MAX)` peeks before eating, so the overflowing digit is left for
`parse_long_integer` to count). -/
def parseIntDigits (positive : Bool) : Nat → List Char → Option (Num64 × List Char)
  | significand, c :: rest =>
    if isDigitChar c then
      if significand * 10 + charDigit c > u64Max then
        parseLongInteger positive significand 0 (c :: rest)
      else parseIntDigits positive (significand * 10 + charDigit c) rest
    else parseNumber positive significand (c :: rest)
  | significand, [] => parseNumber positive significand []

/-- `parse_any_number` (the `-`, if any, already consumed): a single
leading `0` may not be followed by another digit; otherwise the first
digit starts the integer loop. -/
def parseAnyNumber (positive : Bool) : List Char → Option (Num64 × List Char)
  | [] => none
  | c :: rest =>
    if c = '0' then
      match rest with
      | c2 :: _ => if isDigitChar c2 then none else parseNumber positive 0 rest
      | [] => parseNumber positive 0 []
    else if isDigitChar c then parseIntDigits positive (charDigit c) rest
    else none

mutual
/-- One JSON value (fuelled).  Objects are accumulated with
`insertSorted`, mirroring deserialization into a `BTreeMap`. -/
def parseVal : Nat → List Char → Option (JVal × List Char)
  | 0, _ => none
  | fuel + 1, cs =>
    match skipWs cs with
    | [] => none
    | c :: r =>
      if c = 'n' then
        match r with
        | 'u' :: 'l' :: 'l' :: r2 => some (.null, r2)
        | _ => none
      else if c = 't' then
        match r with
        | 'r' :: 'u' :: 'e' :: r2 => some (.bool true, r2)
        | _ => none
      else if c = 'f' then
        match r with
        | 'a' :: 'l' :: 's' :: 'e' :: r2 => some (.bool false, r2)
        | _ => none
      else if c = '"' then
        (fun p => (JVal.str p.1, p.2)) <$> parseStringBody (r.length + 1) r
      else if c = '[' then
        match skipWs r with
        | ']' :: r2 => some (.arr [], r2)
        | _ => parseElems fuel (skipWs r) []
      else if c = '{' then
        match skipWs r with
        | '}' :: r2 => some (.obj [], r2)
        | _ => parseMembers fuel (skipWs r) []
      else if c = '-' then
        (fun p => (JVal.num p.1, p.2)) <$> parseAnyNumber false r
      else if isDigitChar c then
        (fun p => (JVal.num p.1, p.2)) <$> parseAnyNumber true (c :: r)
      else none
/-- The elements of a non-empty array, in order. -/
def parseElems : Nat → List Char → List JVal → Option (JVal × List Char)
  | 0, _, _ => none
  | fuel + 1, cs, acc =>
    match parseVal fuel cs with
    | none => none
    | some (v, r) =>
      match skipWs r with
      | ',' :: r2 => parseElems fuel r2 (acc ++ [v])
      | ']' :: r2 => some (.arr (acc ++ [v]), r2)
      | _ => none
/-- The members of a non-empty object, inserted into the map. -/
def parseMembers : Nat → List Char → List (List Char × JVal) → Option (JVal × List Char)
  | 0, _, _ => none
  | fuel + 1, cs, acc =>
    match cs with
    | '"' :: r =>
      match parseStringBody (r.length + 1) r with
      | none => none
      | some (k, r1) =>
        match skipWs r1 with
        | ':' :: r2 =>
          match parseVal fuel r2 with
          | none => none
          | some (v, r3) =>
            match skipWs r3 with
            | ',' :: r4 => parseMembers fuel (skipWs r4) (insertSorted k v acc)
            | '}' :: r4 => some (.obj (insertSorted k v acc), r4)
            | _ => none
        | _ => none
    | _ => none
end

/-- `serde_json::from_str::<Value>`: one value, then only whitespace up
to the end of input. -/
def parseJson (cs : List Char) : Option JVal :=
  match parseVal (cs.length + 1) cs with
  | some (v, rest) => if skipWs rest = [] then some v else none
  | none => none

/-! ## The program model (`src/main.rs`) -/

/-- The parsed command line (`struct Cli`), produced by the external
argument parser. -/
structure Cli where
  url : String
  method : Option String
  data : Option String
  json : Option String

/-- Model of `str::eq_ignore_ascii_case`: byte-wise comparison after
ASCII lower-casing.  On UTF-8 strings this is the same as comparing the
character sequences with ASCII letters lower-cased, since the ASCII range
only occurs as stand-alone code units. -/
def asciiLowerChar (c : Char) : Char :=
  if 65 ≤ c.toNat ∧ c.toNat ≤ 90 then Char.ofNat (c.toNat + 32) else c

def eqIgnoreAsciiCase (a b : List Char) : Bool :=
  a.map asciiLowerChar == b.map asciiLowerChar

/-- `main`, lines 27–30: default the method to GET, then infer POST when
a body flag is present and the method case-insensitively equals GET. -/
def resolveMethod (args : Cli) : String :=
  let m := args.method.getD "GET"
  if eqIgnoreAsciiCase m.data "GET".data && (args.json.isSome || args.data.isSome) then
    "POST"
  else m

/-- The result of the external `Url::parse` on success; only the scheme
is inspected by the program. -/
structure ParsedUrl where
  scheme : String
  rest : String

/-- The encoded request body. -/
inductive Body where
  | formBody (pairs : List (List Char × List Char))
  | jsonBody (v : JVal)

/-- The outgoing request handed to the transport. -/
structure Request where
  method : String
  url : ParsedUrl
  contentType : Option String
  body : Option Body

/-- How a run ends before (or instead of) the transport call. -/
inductive Outcome where
  | sent (r : Request)
  | printedErr (msg : String)
  | panicked

/-- `handle_form_post`, lines 106–109: split the data on `&`, split each
piece at the first `=`, drop pieces without `=`. -/
def splitOnAmp : List Char → List (List Char)
  | [] => [[]]
  | c :: cs =>
    if c = '&' then [] :: splitOnAmp cs
    else
      match splitOnAmp cs with
      | s :: rest => (c :: s) :: rest
      | [] => [[c]]

/-- Model of `str::split_once('=')`. -/
def splitOnceEq : List Char → Option (List Char × List Char)
  | [] => none
  | c :: cs =>
    if c = '=' then some ([], cs)
    else (fun p => (c :: p.1, p.2)) <$> splitOnceEq cs

def formPairs (data : List Char) : List (List Char × List Char) :=
  (splitOnAmp data).filterMap splitOnceEq

/-- `client.get(url)`: a GET request with no body and no explicit
content type. -/
def getRequest (u : ParsedUrl) : Request :=
  { method := "GET", url := u, contentType := none, body := none }

/-- `main`, lines 53–68 together with the request each handler builds
before calling the transport: `"POST"` dispatches on the body flags
(JSON first), any other resolved method performs a plain GET.
`handle_json_post` panics on malformed JSON before anything is sent. -/
def dispatch (method : String) (json data : Option String) (u : ParsedUrl) : Outcome :=
  match method with
  | "POST" =>
    match json with
    | some j =>
      match parseJson j.data with
      | none => .panicked
      | some v =>
        .sent { method := "POST", url := u, contentType := some "application/json",
                body := some (.jsonBody v) }
    | none =>
      match data with
      | some d =>
        .sent { method := "POST", url := u,
                contentType := some "application/x-www-form-urlencoded",
                body := some (.formBody (formPairs d.data)) }
      | none => .printedErr "Error: POST method requires -d or --json data."
  | _ => .sent (getRequest u)

/-- The message printed both for a URL without a base protocol and for a
parsed URL whose scheme is not http/https (lines 47 and 77). -/
def urlProtocolMsg : String := "Error: The URL does not have a valid base protocol."

/-- Does `s` start with `pat`? -/
def leadsWith : List Char → List Char → Bool
  | [], _ => true
  | _ :: _, [] => false
  | p :: ps, c :: cs => p = c && leadsWith ps cs

/-- Model of `str::contains(pat)`: `pat` occurs as a contiguous
substring of `s`. -/
def containsSub : List Char → List Char → Bool
  | pat, [] => leadsWith pat []
  | pat, c :: cs => leadsWith pat (c :: cs) || containsSub pat cs

/-- `handle_url_error`, lines 73–87: classify the `url::ParseError`
display text by substring. -/
def handleUrlError (msg : String) : String :=
  if containsSub "relative URL".data msg.data then urlProtocolMsg
  else if containsSub "invalid port number".data msg.data then
    "Error: The URL contains an invalid port number."
  else if containsSub "invalid IPv4 address".data msg.data then
    "Error: The URL contains an invalid IPv4 address."
  else if containsSub "invalid IPv6 address".data msg.data then
    "Error: The URL contains an invalid IPv6 address."
  else "Error: " ++ msg

/-- `main` from line 44 on, after `Url::parse` succeeded: reject schemes
other than http/https, otherwise dispatch on the resolved method. -/
def runParsed (args : Cli) (u : ParsedUrl) : Outcome :=
  if u.scheme ≠ "http" ∧ u.scheme ≠ "https" then .printedErr urlProtocolMsg
  else dispatch (resolveMethod args) args.json args.data u

/-- The transport's answer (external collaborator `reqwest`): a response
with a status and a body (`none` models a failing `res.text()`), or a
connection-level failure. -/
inductive TransportResult where
  | response (status : Nat) (bodyText : Option String)
  | connFailure

/-- `StatusCode::is_success`: 200 ≤ status ≤ 299. -/
def isSuccessStatus (status : Nat) : Bool := 200 ≤ status && status ≤ 299

/-- `sort_json_keys`, lines 157–169, as the value actually serialized:
for an object, collect the keys, sort them, and insert each key with its
value into a fresh map; other values pass through. -/
def mapKeys (kvs : List (List Char × JVal)) : List (List Char) := kvs.map Prod.fst

/-- Insertion into a sorted key list (`Vec::sort` on the collected keys,
realised as insertion sort). -/
def insertKey (k : List Char) : List (List Char) → List (List Char)
  | [] => [k]
  | k' :: rest =>
    if keyLt k k' || k = k' then k :: k' :: rest else k' :: insertKey k rest

def sortKeys (l : List (List Char)) : List (List Char) := l.foldr insertKey []

/-- `map[k]` for a key known to be present (total model: absent keys
yield `null`, a case the program never reaches). -/
def lookupD : List (List Char × JVal) → List Char → JVal
  | [], _ => .null
  | (k', v) :: rest, k => if k = k' then v else lookupD rest k

/-- The value whose pretty form `sort_json_keys` returns. -/
def sortTopVal : JVal → JVal
  | .obj map =>
    .obj ((sortKeys (mapKeys map)).foldl (fun acc k => insertSorted k (lookupD map k) acc) [])
  | v => v

/-- `sort_json_keys` itself: `to_string_pretty` of the rebuilt value.
(`to_string_pretty` on a `Value` cannot fail, so the `unwrap` in the
source never panics; the model is accordingly total.) -/
def sortJsonKeys (ryu : RyuFmt) (v : JVal) : List Char := prettyV ryu 0 (sortTopVal v)

/-- `print_response`, lines 139–154: one line of output per response. -/
def printResponse (ryu : RyuFmt) (status : Nat) (bodyText : Option String) : String :=
  if !isSuccessStatus status then
    "Error: Request failed with status code: " ++ toString status ++ "."
  else
    let text := bodyText.getD "No response body."
    match parseJson text.data with
    | some json =>
      "Response body (JSON with sorted keys):\n" ++ String.mk (sortJsonKeys ryu json)
    | none => "Response body:\n" ++ text

def connErrGetMsg : String :=
  "Error: Unable to connect to the server. Perhaps the network is offline or the server hostname cannot be resolved."

def connErrPostMsg : String := "Error: Unable to connect to the server."

/-- `handle_get`, lines 91–102: the lines printed for each transport
result. -/
def handleGet (ryu : RyuFmt) (tr : TransportResult) : List String :=
  match tr with
  | .response s b => [printResponse ryu s b]
  | .connFailure => [connErrGetMsg]

/-- `handle_form_post`, lines 104–115: echoes the data, then the result. -/
def handleFormPost (ryu : RyuFmt) (data : String) (tr : TransportResult) : List String :=
  ("Data: " ++ data) ::
    match tr with
    | .response s b => [printResponse ryu s b]
    | .connFailure => [connErrPostMsg]

/-- `handle_json_post`, lines 117–135: `none` models the
`panic!("Invalid JSON: ...")` abort on malformed input; otherwise the
echoed input and the result line. -/
def handleJsonPost (ryu : RyuFmt) (jsonStr : String) (tr : TransportResult) :
    Option (List String) :=
  match parseJson jsonStr.data with
  | none => none
  | some _ =>
    some (("JSON: " ++ jsonStr) ::
      match tr with
      | .response s b => [printResponse ryu s b]
      | .connFailure => [connErrPostMsg])

/-! ## Helper lemmas and spec-side definitions for the claims -/

theorem keyLt_irrefl (a : List Char) : keyLt a a = false := by
  induction a with
  | nil => rfl
  | cons c cs ih => simp [keyLt, ih]

theorem charToNat_inj (a b : Char) (h : a.toNat = b.toNat) : a = b :=
  Char.ext (UInt32.ext h)

theorem keyLt_asymm (a b : List Char) (h : keyLt a b = true) : keyLt b a = false := by
  induction a generalizing b with
  | nil =>
    cases b with
    | nil => simp [keyLt] at h
    | cons c cs => simp [keyLt]
  | cons c cs ih =>
    cases b with
    | nil => simp [keyLt] at h
    | cons d ds =>
      rcases Nat.lt_trichotomy c.toNat d.toNat with hcd | hcd | hcd
      · simp [keyLt, hcd, show ¬d.toNat < c.toNat by omega]
      · simp only [keyLt, show ¬c.toNat < d.toNat by omega,
          show ¬d.toNat < c.toNat by omega, if_false] at h ⊢
        exact ih ds h
      · simp [keyLt, hcd, show ¬c.toNat < d.toNat by omega] at h

theorem keyLt_trans (a b c : List Char) (hab : keyLt a b = true) (hbc : keyLt b c = true) :
    keyLt a c = true := by
  induction a generalizing b c with
  | nil =>
    cases c with
    | nil =>
      cases b with
      | nil => simp [keyLt] at hab
      | cons d ds => simp [keyLt] at hbc
    | cons e es => simp [keyLt]
  | cons x xs ih =>
    cases b with
    | nil => simp [keyLt] at hab
    | cons y ys =>
      cases c with
      | nil => simp [keyLt] at hbc
      | cons z zs =>
        rcases Nat.lt_trichotomy x.toNat y.toNat with hxy | hxy | hxy
        · rcases Nat.lt_trichotomy y.toNat z.toNat with hyz | hyz | hyz
          · simp [keyLt]; omega
          · simp [keyLt]; omega
          · simp [keyLt, show ¬y.toNat < z.toNat by omega, hyz] at hbc
        · simp only [keyLt, show ¬x.toNat < y.toNat by omega,
            show ¬y.toNat < x.toNat by omega, if_false] at hab
          rcases Nat.lt_trichotomy y.toNat z.toNat with hyz | hyz | hyz
          · simp [keyLt]; omega
          · simp only [keyLt, show ¬y.toNat < z.toNat by omega,
              show ¬z.toNat < y.toNat by omega, if_false] at hbc
            simp only [keyLt, show ¬x.toNat < z.toNat by omega,
              show ¬z.toNat < x.toNat by omega, if_false]
            exact ih ys zs hab hbc
          · simp [keyLt, show ¬y.toNat < z.toNat by omega, hyz] at hbc
        · simp [keyLt, show ¬x.toNat < y.toNat by omega, hxy] at hab

theorem keyLt_total (a b : List Char) (h : keyLt a b = false) (hne : a ≠ b) :
    keyLt b a = true := by
  induction a generalizing b with
  | nil =>
    cases b with
    | nil => exact absurd rfl hne
    | cons d ds => simp [keyLt] at h
  | cons c cs ih =>
    cases b with
    | nil => simp [keyLt]
    | cons d ds =>
      rcases Nat.lt_trichotomy c.toNat d.toNat with hcd | hcd | hcd
      · simp [keyLt, hcd] at h
      · have hc : c = d := charToNat_inj _ _ hcd
        subst hc
        simp only [keyLt, lt_irrefl, if_false] at h ⊢
        refine ih ds h (fun hh => hne ?_)
        rw [hh]
      · simp [keyLt, hcd, show ¬c.toNat < d.toNat by omega]

theorem sortedM_tail {k : List Char} {v : JVal} {rest : List (List Char × JVal)}
    (h : sortedM ((k, v) :: rest) = true) : sortedM rest = true := by
  cases rest with
  | nil => rfl
  | cons p r =>
    obtain ⟨kp, vp⟩ := p
    simp only [sortedM, Bool.and_eq_true] at h
    exact h.2

theorem sortedM_head_lt {k : List Char} {v : JVal} {rest : List (List Char × JVal)}
    (h : sortedM ((k, v) :: rest) = true) :
    ∀ p ∈ rest, keyLt k p.1 = true := by
  induction rest generalizing k v with
  | nil => intro p hp; cases hp
  | cons q r ih =>
    obtain ⟨kq, vq⟩ := q
    simp only [sortedM, Bool.and_eq_true] at h
    intro p hp
    rcases List.mem_cons.mp hp with hp | hp
    · subst hp; exact h.1
    · exact keyLt_trans _ _ _ h.1 (ih h.2 p hp)

theorem sortedM_append_left_lt {l1 l2 : List (List Char × JVal)} {k : List Char} {v : JVal}
    (h : sortedM (l1 ++ (k, v) :: l2) = true) :
    ∀ p ∈ l1, keyLt p.1 k = true := by
  induction l1 with
  | nil => intro p hp; cases hp
  | cons q l1' ih =>
    obtain ⟨kq, vq⟩ := q
    intro p hp
    rcases List.mem_cons.mp hp with hp | hp
    · subst hp
      exact sortedM_head_lt h (k, v) (by simp)
    · exact ih (sortedM_tail h) p hp

theorem sortedM_append_right {l1 l2 : List (List Char × JVal)}
    (h : sortedM (l1 ++ l2) = true) : sortedM l2 = true := by
  induction l1 with
  | nil => exact h
  | cons q l1' ih =>
    obtain ⟨kq, vq⟩ := q
    exact ih (sortedM_tail h)

theorem insertSorted_append {acc : List (List Char × JVal)} {k : List Char} {v : JVal}
    (h : ∀ p ∈ acc, keyLt p.1 k = true) :
    insertSorted k v acc = acc ++ [(k, v)] := by
  induction acc with
  | nil => rfl
  | cons q acc' ih =>
    obtain ⟨k0, v0⟩ := q
    have h0 : keyLt k0 k = true := h (k0, v0) (by simp)
    have h1 : keyLt k k0 = false := keyLt_asymm _ _ h0
    have h2 : ¬k = k0 := by
      intro hk; subst hk; rw [keyLt_irrefl] at h0; cases h0
    simp only [insertSorted, h1, h2, if_false, Bool.false_eq_true]
    rw [ih (fun p hp => h p (by simp [hp]))]
    simp

theorem mem_insertSorted {q : List Char × JVal} {k : List Char} {v : JVal}
    {m : List (List Char × JVal)} (h : q ∈ insertSorted k v m) :
    q = (k, v) ∨ q ∈ m := by
  induction m with
  | nil => simpa [insertSorted] using h
  | cons p m' ih =>
    obtain ⟨k0, v0⟩ := p
    simp only [insertSorted] at h
    split at h
    · rcases List.mem_cons.mp h with h | h
      · exact Or.inl h
      · exact Or.inr h
    · split at h
      · rcases List.mem_cons.mp h with h | h
        · exact Or.inl h
        · exact Or.inr (by simp [h])
      · rcases List.mem_cons.mp h with h | h
        · exact Or.inr (by simp [h])
        · rcases ih h with h | h
          · exact Or.inl h
          · exact Or.inr (by simp [h])

theorem sortedM_insert {m : List (List Char × JVal)} {k : List Char} {v : JVal}
    (h : sortedM m = true) : sortedM (insertSorted k v m) = true := by
  induction m with
  | nil => rfl
  | cons p m' ih =>
    obtain ⟨k0, v0⟩ := p
    simp only [insertSorted]
    split
    · next hlt =>
      cases m' with
      | nil => simpa [sortedM] using hlt
      | cons q m'' =>
        obtain ⟨k1, v1⟩ := q
        simp only [sortedM, Bool.and_eq_true] at h ⊢
        exact ⟨hlt, h⟩
    · split
      · next hne heq =>
        subst heq
        cases m' with
        | nil => rfl
        | cons q m'' =>
          obtain ⟨k1, v1⟩ := q
          simp only [sortedM, Bool.and_eq_true] at h ⊢
          exact h
      · next hnlt hne =>
        have hs' : sortedM (insertSorted k v m') = true := ih (sortedM_tail h)
        have h0k : keyLt k0 k = true :=
          keyLt_total _ _ (by simpa using hnlt) hne
        cases hins : insertSorted k v m' with
        | nil => rfl
        | cons q t =>
          obtain ⟨kq, vq⟩ := q
          simp only [sortedM, Bool.and_eq_true]
          refine ⟨?_, by rw [← hins]; exact hs'⟩
          have hq : (kq, vq) ∈ insertSorted k v m' := by rw [hins]; simp
          rcases mem_insertSorted hq with hq | hq
          · cases hq; exact h0k
          · exact sortedM_head_lt h _ hq

theorem allSortedO_insert {m : List (List Char × JVal)} {k : List Char} {v : JVal}
    (hv : allSorted v = true) (hm : allSortedO m = true) :
    allSortedO (insertSorted k v m) = true := by
  induction m with
  | nil => simpa [insertSorted, allSortedO] using hv
  | cons p m' ih =>
    obtain ⟨k0, v0⟩ := p
    simp only [allSortedO, Bool.and_eq_true] at hm
    simp only [insertSorted]
    split
    · simp only [allSortedO, Bool.and_eq_true]
      exact ⟨hv, hm.1, hm.2⟩
    · split
      · simp only [allSortedO, Bool.and_eq_true]
        exact ⟨hv, hm.2⟩
      · simp only [allSortedO, Bool.and_eq_true]
        exact ⟨hm.1, ih hm.2⟩

theorem allSortedL_append {l1 l2 : List JVal} (h1 : allSortedL l1 = true)
    (h2 : allSortedL l2 = true) : allSortedL (l1 ++ l2) = true := by
  induction l1 with
  | nil => simpa using h2
  | cons v l1' ih =>
    simp only [allSortedL, Bool.and_eq_true] at h1
    simp only [List.cons_append, allSortedL, Bool.and_eq_true]
    exact ⟨h1.1, ih h1.2⟩

/-- Deserialization builds objects with `insertSorted` only, so every
parsed value satisfies the `BTreeMap` invariant at every depth. -/
theorem parse_inv (f : Nat) :
    (∀ cs v r, parseVal f cs = some (v, r) → allSorted v = true) ∧
    (∀ cs acc v r, allSortedL acc = true → parseElems f cs acc = some (v, r) →
      allSorted v = true) ∧
    (∀ cs acc v r, sortedM acc = true → allSortedO acc = true →
      parseMembers f cs acc = some (v, r) → allSorted v = true) := by
  induction f with
  | zero =>
    refine ⟨?_, ?_, ?_⟩
    · intro cs v r h; simp [parseVal] at h
    · intro cs acc v r _ h; simp [parseElems] at h
    · intro cs acc v r _ _ h; simp [parseMembers] at h
  | succ f ih =>
    obtain ⟨ihV, ihE, ihM⟩ := ih
    refine ⟨?_, ?_, ?_⟩
    · intro cs v r h
      simp only [parseVal] at h
      cases hsk : skipWs cs with
      | nil => rw [hsk] at h; simp at h
      | cons c cs' =>
        rw [hsk] at h
        simp only [] at h
        by_cases hn : c = 'n'
        · rw [if_pos hn] at h
          split at h
          · cases h; rfl
          · cases h
        · rw [if_neg hn] at h
          by_cases ht : c = 't'
          · rw [if_pos ht] at h
            split at h
            · cases h; rfl
            · cases h
          · rw [if_neg ht] at h
            by_cases hf : c = 'f'
            · rw [if_pos hf] at h
              split at h
              · cases h; rfl
              · cases h
            · rw [if_neg hf] at h
              by_cases hq : c = '"'
              · rw [if_pos hq] at h
                cases hps : parseStringBody (cs'.length + 1) cs' with
                | none => rw [hps] at h; cases h
                | some p => rw [hps] at h; cases h; rfl
              · rw [if_neg hq] at h
                by_cases hb : c = '['
                · rw [if_pos hb] at h
                  split at h
                  · cases h; rfl
                  · exact ihE _ [] _ _ rfl h
                · rw [if_neg hb] at h
                  by_cases hc : c = '{'
                  · rw [if_pos hc] at h
                    split at h
                    · cases h; rfl
                    · exact ihM _ [] _ _ rfl rfl h
                  · rw [if_neg hc] at h
                    by_cases hm : c = '-'
                    · rw [if_pos hm] at h
                      cases hpn : parseAnyNumber false cs' with
                      | none => rw [hpn] at h; cases h
                      | some p => rw [hpn] at h; cases h; rfl
                    · rw [if_neg hm] at h
                      split at h
                      · cases hpn : parseAnyNumber true (c :: cs') with
                        | none => rw [hpn] at h; cases h
                        | some p => rw [hpn] at h; cases h; rfl
                      · cases h
    · intro cs acc v r hacc h
      simp only [parseElems] at h
      cases hpv : parseVal f cs with
      | none => rw [hpv] at h; cases h
      | some p =>
        obtain ⟨v0, r0⟩ := p
        rw [hpv] at h
        simp only [] at h
        have hv0 : allSorted v0 = true := ihV _ _ _ hpv
        have hacc2 : allSortedL (acc ++ [v0]) = true :=
          allSortedL_append hacc (by simp [allSortedL, hv0])
        split at h
        · exact ihE _ _ _ _ hacc2 h
        · cases h
          simpa [allSorted] using hacc2
        · cases h
    · intro cs acc v r hs ho h
      simp only [parseMembers] at h
      split at h
      case h_2 => cases h
      rename_i r1
      cases hps : parseStringBody (r1.length + 1) r1 with
      | none => rw [hps] at h; cases h
      | some p =>
        obtain ⟨k, r2⟩ := p
        rw [hps] at h
        simp only [] at h
        split at h
        case h_2 => cases h
        rename_i r3 heq2
        cases hpv : parseVal f r3 with
        | none => rw [hpv] at h; cases h
        | some q =>
          obtain ⟨v0, r4⟩ := q
          rw [hpv] at h
          simp only [] at h
          have hv0 : allSorted v0 = true := ihV _ _ _ hpv
          have hs2 : sortedM (insertSorted k v0 acc) = true := sortedM_insert hs
          have ho2 : allSortedO (insertSorted k v0 acc) = true :=
            allSortedO_insert hv0 ho
          split at h
          · exact ihM _ _ _ _ hs2 ho2 h
          · cases h
            simp [allSorted, hs2, ho2]
          · cases h


theorem parseJson_allSorted {cs : List Char} {v : JVal}
    (h : parseJson cs = some v) : allSorted v = true := by
  unfold parseJson at h
  cases hp : parseVal (cs.length + 1) cs with
  | none => rw [hp] at h; cases h
  | some p =>
    obtain ⟨v0, r⟩ := p
    rw [hp] at h
    simp only [] at h
    split at h
    · injection h with h1
      subst h1
      exact (parse_inv (cs.length + 1)).1 _ _ _ hp
    · cases h

set_option maxRecDepth 8000 in
set_option exponentiation.threshold 2000 in
/-- Validation of the number model against serde_json's boundary
behavior: float literals parse to their exact `f64` values (`1.5`, `0.1`
with its familiar mantissa, `-0` as `-0.0`), `u64::MAX` stays an exact
integer while the next digit pushes into `f64` territory
(`99999999999999999999999999` becomes the `f64` nearest `1e26` as
computed by serde_json's two roundings), `i64::MIN` is the most negative
exact integer, the largest finite decimal of the `POW10` path parses
while the next representable step and `1e309` are the `NumberOutOfRange`
error, `5e-324` is the smallest subnormal, and leading zeros and a bare
trailing decimal point are grammar errors. -/
theorem parseJson_number_boundary :
    parseJson ("1.5" : String).data = some (.num (.float false 6755399441055744 (-52))) ∧
    parseJson ("0.1" : String).data = some (.num (.float false 7205759403792794 (-56))) ∧
    parseJson ("-0" : String).data = some (.num (.float true 0 0)) ∧
    parseJson ("18446744073709551615" : String).data =
      some (.num (.posInt 18446744073709551615)) ∧
    parseJson ("99999999999999999999999999" : String).data =
      some (.num (.float false 5820766091346741 34)) ∧
    parseJson ("-9223372036854775808" : String).data =
      some (.num (.negInt (-9223372036854775808))) ∧
    parseJson ("17976931348623157e292" : String).data =
      some (.num (.float false 9007199254740991 971)) ∧
    parseJson ("17976931348623159e292" : String).data = none ∧
    parseJson ("1e309" : String).data = none ∧
    parseJson ("5e-324" : String).data = some (.num (.float false 1 (-1074))) ∧
    parseJson ("01" : String).data = none ∧
    parseJson ("1." : String).data = none :=
  ⟨rfl, rfl, rfl, rfl, rfl, rfl, rfl, rfl, rfl, rfl, rfl, rfl⟩

/-! ### `sort_json_keys` is the identity serializer on invariant values -/

theorem insertKey_front {k k2 : List Char} {rest : List (List Char)}
    (h : keyLt k k2 = true) : insertKey k (k2 :: rest) = k :: k2 :: rest := by
  simp [insertKey, h]

theorem sortKeys_of_sorted : ∀ (m : List (List Char × JVal)), sortedM m = true →
    sortKeys (mapKeys m) = mapKeys m
  | [], _ => rfl
  | [(k, v)], _ => rfl
  | (k, v) :: (k2, v2) :: m', h => by
    have hh : keyLt k k2 = true ∧ sortedM ((k2, v2) :: m') = true := by
      simpa [sortedM] using h
    have ih := sortKeys_of_sorted ((k2, v2) :: m') hh.2
    show insertKey k (sortKeys (mapKeys ((k2, v2) :: m'))) = _
    rw [ih]
    exact insertKey_front hh.1

theorem lookupD_append {pre suf : List (List Char × JVal)} {k : List Char} {v : JVal}
    (h : ∀ p ∈ pre, ¬p.1 = k) : lookupD (pre ++ (k, v) :: suf) k = v := by
  induction pre with
  | nil => simp [lookupD]
  | cons q pre' ih =>
    obtain ⟨k0, v0⟩ := q
    have h0 : ¬k0 = k := h (k0, v0) (by simp)
    have h0' : ¬k = k0 := fun hc => h0 hc.symm
    simp only [List.cons_append, lookupD, h0', if_false]
    exact ih (fun p hp => h p (by simp [hp]))

theorem rebuild_sorted (m : List (List Char × JVal)) (hm : sortedM m = true) :
    ∀ (suf pre : List (List Char × JVal)), m = pre ++ suf →
      List.foldl (fun acc k => insertSorted k (lookupD m k) acc) pre (mapKeys suf) = m := by
  intro suf
  induction suf with
  | nil => intro pre hpre; simp [mapKeys, hpre]
  | cons q suf' ih =>
    obtain ⟨k, v⟩ := q
    intro pre hpre
    subst hpre
    have hlt : ∀ p ∈ pre, keyLt p.1 k = true := sortedM_append_left_lt hm
    have hne : ∀ p ∈ pre, ¬p.1 = k := by
      intro p hp hc
      have := hlt p hp
      rw [hc, keyLt_irrefl] at this
      cases this
    have hl : lookupD (pre ++ (k, v) :: suf') k = v := lookupD_append hne
    show List.foldl _ (insertSorted k (lookupD (pre ++ (k, v) :: suf') k) pre)
      (mapKeys suf') = _
    rw [hl, insertSorted_append hlt]
    have := ih (pre ++ [(k, v)]) (by simp)
    simpa using this

theorem sortTopVal_id (v : JVal) (h : allSorted v = true) : sortTopVal v = v := by
  cases v with
  | null => rfl
  | bool b => rfl
  | num n => rfl
  | str s => rfl
  | arr vs => rfl
  | obj kvs =>
    have hm : sortedM kvs = true := by
      simp only [allSorted, Bool.and_eq_true] at h
      exact h.1
    simp only [sortTopVal]
    rw [sortKeys_of_sorted kvs hm, rebuild_sorted kvs hm kvs [] rfl]

/-- Does the segment contain a `=` at all? -/
def containsEqChar : List Char → Bool
  | [] => false
  | c :: cs => c = '=' || containsEqChar cs

/-- The form-pairs computation as the specification words it: split the
string on `&`, keep only the segments that contain a `=`, and map each
surviving segment to the pair (text before the first `=`, text after it). -/
def specFormPairs (data : List Char) : List (List Char × List Char) :=
  ((splitOnAmp data).filter containsEqChar).map
    (fun s => (s.takeWhile (fun c => ¬c = '='), (s.dropWhile (fun c => ¬c = '=')).tail))

theorem splitOnceEq_eq (s : List Char) :
    splitOnceEq s =
      if containsEqChar s then
        some (s.takeWhile (fun c => ¬c = '='), (s.dropWhile (fun c => ¬c = '=')).tail)
      else none := by
  induction s with
  | nil => rfl
  | cons c cs ih =>
    by_cases hc : c = '='
    · subst hc
      simp [splitOnceEq, containsEqChar]
    · rw [show splitOnceEq (c :: cs) = (fun p => (c :: p.1, p.2)) <$> splitOnceEq cs by
        simp [splitOnceEq, hc]]
      rw [ih]
      by_cases hq : containsEqChar cs = true
      · simp [containsEqChar, hc, hq, List.takeWhile_cons, List.dropWhile_cons]
      · simp [containsEqChar, hc, hq]

theorem filterMap_splitOnceEq (l : List (List Char)) :
    l.filterMap splitOnceEq =
      (l.filter containsEqChar).map
        (fun s => (s.takeWhile (fun c => ¬c = '='), (s.dropWhile (fun c => ¬c = '=')).tail)) := by
  induction l with
  | nil => rfl
  | cons s l ih =>
    rw [List.filterMap_cons, splitOnceEq_eq, List.filter_cons]
    by_cases hs : containsEqChar s = true
    · simp [hs, ih]
    · simp [hs, ih]

/-! ## The claims -/

/-- C2, counterexample: the method field is explicitly set to `"GET"`
and form data is present, yet the resolved method is not that explicit
value — the GET→POST inference also fires on an explicit GET. -/
theorem c2_counterexample :
    resolveMethod { url := "http://x.test", method := some "GET",
                    data := some "a=1", json := none } ≠ "GET" := by decide

/-- C2 (amended): for every options record whose method field is
explicitly set, the resolved method equals that explicit value verbatim
provided the value is not case-insensitively equal to "GET" — or no body
field is set; an explicit (case-insensitive) "GET" together with a body
field resolves to "POST" instead. -/
theorem c2_resolveMethod_explicit (args : Cli) (m : String)
    (hm : args.method = some m)
    (h : eqIgnoreAsciiCase m.data "GET".data = false ∨ (args.json = none ∧ args.data = none)) :
    resolveMethod args = m := by
  cases h with
  | inl h1 => simp [resolveMethod, hm, h1]
  | inr h2 => simp [resolveMethod, hm, h2.1, h2.2]

theorem c2_resolveMethod_explicit_witness :
    ({ url := "http://x.test", method := some "PUT", data := some "a=1",
       json := none } : Cli).method = some "PUT" ∧
    eqIgnoreAsciiCase "PUT".data "GET".data = false ∧
    resolveMethod { url := "http://x.test", method := some "PUT", data := some "a=1",
                    json := none } = "PUT" :=
  ⟨rfl, by decide,
    c2_resolveMethod_explicit _ "PUT" rfl (Or.inl (by decide))⟩

/-- C3: when the method field is unset, the resolved method is "POST"
exactly when a body field (form or JSON) is set, and "GET" otherwise. -/
theorem c3_resolveMethod_unset (url : String) (json data : Option String) :
    resolveMethod { url := url, method := none, data := data, json := json } =
      if json.isSome || data.isSome then "POST" else "GET" := by
  have hg : eqIgnoreAsciiCase "GET".data "GET".data = true := by decide
  simp [resolveMethod, hg]

/-- C4: every resolved method other than the exact string "POST"
(including "PUT" or a lower-case "post") leads to a GET request with no
body and no content type, whatever body flags were given. -/
theorem c4_nonPost_sends_get (m : String) (json data : Option String) (u : ParsedUrl)
    (h : m ≠ "POST") :
    dispatch m json data u =
      .sent { method := "GET", url := u, contentType := none, body := none } := by
  unfold dispatch
  split
  · exact absurd rfl h
  · rfl

theorem c4_nonPost_sends_get_witness :
    ("post" : String) ≠ "POST" ∧
    dispatch "post" (some "\x7b\"a\":1\x7d") (some "a=1") { scheme := "http", rest := "x.test" } =
      .sent { method := "GET", url := { scheme := "http", rest := "x.test" },
              contentType := none, body := none } :=
  ⟨by decide, c4_nonPost_sends_get "post" _ _ _ (by decide)⟩

/-- C5: for every status outside 200–299 the formatter's output is
exactly the failure-status line with the numeric code; the body text
(present or not) is never part of the output. -/
theorem c5_failure_status (ryu : RyuFmt) (status : Nat) (bodyText : Option String)
    (h : status < 200 ∨ 300 ≤ status) :
    printResponse ryu status bodyText =
      "Error: Request failed with status code: " ++ toString status ++ "." := by
  have hs : isSuccessStatus status = false := by
    simp only [isSuccessStatus]
    rcases h with h | h <;> simp <;> omega
  simp [printResponse, hs]

theorem c5_failure_status_witness :
    ((404 : Nat) < 200 ∨ 300 ≤ 404) ∧
    printResponse (fun _ _ _ => []) 404 (some "<html>Not Found</html>") =
      "Error: Request failed with status code: " ++ toString 404 ++ "." :=
  ⟨Or.inr (by decide), c5_failure_status (fun _ _ _ => []) 404 _ (Or.inr (by decide))⟩

/-- C6, counterexample: on a connection failure the GET branch and the
form-POST branch do not print the same message — the GET message carries
an extra explanatory sentence. -/
theorem c6_counterexample :
    (handleGet (fun _ _ _ => []) .connFailure).getLast? ≠
      (handleFormPost (fun _ _ _ => []) "a=1" .connFailure).getLast? := by
  decide

/-- C6 (amended): each branch prints one single connection-error
message; the form-POST and JSON-POST branches print the identical text,
while the GET branch prints that same text extended by an extra
explanatory sentence (so the message is not literally identical across
branches). -/
theorem c6_connError_messages (ryu : RyuFmt) (d j : String) (v : JVal)
    (hj : parseJson j.data = some v) :
    handleGet ryu .connFailure = [connErrGetMsg] ∧
    handleFormPost ryu d .connFailure = ["Data: " ++ d, connErrPostMsg] ∧
    handleJsonPost ryu j .connFailure = some ["JSON: " ++ j, connErrPostMsg] ∧
    connErrGetMsg = connErrPostMsg ++
      " Perhaps the network is offline or the server hostname cannot be resolved." := by
  refine ⟨rfl, rfl, ?_, rfl⟩
  simp [handleJsonPost, hj]

theorem c6_connError_messages_witness :
    parseJson ("1" : String).data = some (.num (.posInt 1)) ∧
    (handleGet (fun _ _ _ => []) .connFailure = [connErrGetMsg] ∧
     handleFormPost (fun _ _ _ => []) "a=1" .connFailure =
       ["Data: " ++ "a=1", connErrPostMsg] ∧
     handleJsonPost (fun _ _ _ => []) "1" .connFailure =
       some ["JSON: " ++ "1", connErrPostMsg] ∧
     connErrGetMsg = connErrPostMsg ++
       " Perhaps the network is offline or the server hostname cannot be resolved.") :=
  ⟨rfl, c6_connError_messages (fun _ _ _ => []) "a=1" "1" (.num (.posInt 1)) rfl⟩

/-- C7: the form encoder equals the specification's description — split
on `&`, split each segment at the first `=`, silently drop segments
without `=` — and on `"a=1&b=2&broken"` it yields exactly
`[("a","1"),("b","2")]`. -/
theorem c7_formPairs :
    (∀ data, formPairs data = specFormPairs data) ∧
    formPairs ("a=1&b=2&broken" : String).data =
      [(("a" : String).data, ("1" : String).data),
       (("b" : String).data, ("2" : String).data)] := by
  constructor
  · intro data
    unfold formPairs specFormPairs
    exact filterMap_splitOnceEq _
  · rfl

/-- C8: a parsed URL whose scheme is neither http nor https makes the
program print exactly the "valid base protocol" message — the very text
the missing-base-protocol classification of `handle_url_error` prints —
and no request is built or sent. -/
theorem c8_bad_scheme (args : Cli) (u : ParsedUrl)
    (h1 : u.scheme ≠ "http") (h2 : u.scheme ≠ "https") :
    runParsed args u = .printedErr urlProtocolMsg ∧
    handleUrlError "relative URL without a base" = urlProtocolMsg ∧
    ∀ r, runParsed args u ≠ .sent r := by
  have hrun : runParsed args u = .printedErr urlProtocolMsg := by
    simp [runParsed, h1, h2]
  refine ⟨hrun, rfl, ?_⟩
  intro r hr
  rw [hrun] at hr
  exact Outcome.noConfusion hr

theorem c8_bad_scheme_witness :
    ({ scheme := "ftp", rest := "host" } : ParsedUrl).scheme ≠ "http" ∧
    ({ scheme := "ftp", rest := "host" } : ParsedUrl).scheme ≠ "https" ∧
    (runParsed { url := "ftp://host", method := none, data := none, json := none }
        { scheme := "ftp", rest := "host" } = .printedErr urlProtocolMsg ∧
     handleUrlError "relative URL without a base" = urlProtocolMsg ∧
     ∀ r, runParsed { url := "ftp://host", method := none, data := none, json := none }
        { scheme := "ftp", rest := "host" } ≠ .sent r) :=
  ⟨by decide, by decide, c8_bad_scheme _ _ (by decide) (by decide)⟩

/-- C1: for every success-status response whose body parses as JSON —
whatever rendering `ryu` the serializer uses for finite floats — the
formatter's output pretty-prints the parsed value itself, arrays and
scalars unchanged, and that value carries every object's keys in
ascending lexicographic order at every nesting depth (with serde_json's
default `BTreeMap` maps the keys are sorted already at parse time, and
`sort_json_keys`'s rebuild is the identity on such values). -/
theorem c1_success_json_sorted (ryu : RyuFmt) (status : Nat) (body : String) (v : JVal)
    (h1 : isSuccessStatus status = true) (h2 : parseJson body.data = some v) :
    printResponse ryu status (some body) =
      "Response body (JSON with sorted keys):\n" ++ String.mk (sortJsonKeys ryu v) ∧
    sortJsonKeys ryu v = prettyV ryu 0 v ∧
    allSorted v = true := by
  have hall := parseJson_allSorted h2
  refine ⟨?_, ?_, hall⟩
  · simp [printResponse, h1, h2]
  · rw [sortJsonKeys, sortTopVal_id v hall]

theorem c1_success_json_sorted_witness :
    isSuccessStatus 200 = true ∧
    parseJson ("\x7b\"b\":1,\"a\":\x7b\"d\":2,\"c\":3\x7d\x7d" : String).data =
      some (.obj [(['a'], .obj [(['c'], .num (.posInt 3)), (['d'], .num (.posInt 2))]),
                  (['b'], .num (.posInt 1))]) ∧
    (printResponse (fun _ _ _ => []) 200 (some "\x7b\"b\":1,\"a\":\x7b\"d\":2,\"c\":3\x7d\x7d") =
      "Response body (JSON with sorted keys):\n" ++
        String.mk (sortJsonKeys (fun _ _ _ => [])
          (.obj [(['a'], .obj [(['c'], .num (.posInt 3)), (['d'], .num (.posInt 2))]),
                 (['b'], .num (.posInt 1))])) ∧
     sortJsonKeys (fun _ _ _ => [])
         (.obj [(['a'], .obj [(['c'], .num (.posInt 3)), (['d'], .num (.posInt 2))]),
                (['b'], .num (.posInt 1))]) =
       prettyV (fun _ _ _ => []) 0
         (.obj [(['a'], .obj [(['c'], .num (.posInt 3)), (['d'], .num (.posInt 2))]),
                (['b'], .num (.posInt 1))]) ∧
     allSorted (.obj [(['a'], .obj [(['c'], .num (.posInt 3)), (['d'], .num (.posInt 2))]),
                      (['b'], .num (.posInt 1))]) = true) :=
  ⟨rfl, rfl,
    c1_success_json_sorted (fun _ _ _ => []) 200
      "\x7b\"b\":1,\"a\":\x7b\"d\":2,\"c\":3\x7d\x7d" _ rfl rfl⟩

end WebClient
